import Mathlib

set_option maxRecDepth 4000

/-!
Verification of the OS-string marshaling core (`src/shims/os_str.rs`) of an
instruction-level interpreter.  The module converts between the host's native
string representation and null-terminated byte / wide (u16) buffers in the
interpreter's simulated memory, normalizing path separators when host and
target OS conventions disagree.

The embedding below models the byte-oriented (unix) host instantiation of the
`#[cfg]`-selected helpers, plus the wide-oriented (windows) host branch of
`convert_path_separator` where a claim quantifies over both conventions.
Host strings on a byte-oriented host are arbitrary byte lists (`List Nat`,
each entry < 256 in the intended use); wide buffers are lists of 16-bit
units.  Simulated memory is a finite list of optionally-initialized units:
`none` models an uninitialized/undefined unit, an index past the end models
an out-of-bounds address, both of which the memory subsystem reports as a
memory-access error.
-/

namespace OsStr

/-- Recoverable failures surfaced to the caller: a memory-access error
propagated from the memory subsystem, or an encoding failure raised locally
(the source's `err_unsup_format` on invalid UTF-8 / UTF-16). -/
inductive Err where
  | memoryError
  | invalidEncoding
deriving DecidableEq, Repr

/-- Simulated memory at unit granularity (bytes for the C-string functions,
16-bit units for the wide-string functions). -/
abbrev Mem := List (Option Nat)

/-- Overwrite the units of `m` starting at `addr` with `us` (the effect of the
memory subsystem committing a sequence of units). -/
def setUnits (m : Mem) (addr : Nat) (us : List Nat) : Mem :=
  m.take addr ++ us.map some ++ m.drop (addr + us.length)

/-- `Memory::write_bytes` / `Memory::write_u16s`: write a sequence of units,
failing with a memory error when the destination range is not addressable. -/
def writeUnits (m : Mem) (addr : Nat) (us : List Nat) : Except Err Mem :=
  if addr + us.length ≤ m.length then .ok (setUnits m addr us) else .error .memoryError

/-- Scan units until a `0` terminator, collecting the content (terminator
excluded); an uninitialized or out-of-bounds unit is a memory error. -/
def readUnitsGo : List (Option Nat) → Except Err (List Nat)
  | [] => .error .memoryError
  | none :: _ => .error .memoryError
  | some u :: rest => if u = 0 then .ok [] else (readUnitsGo rest).map (u :: ·)

/-- `Memory::read_c_str` / `Memory::read_wide_str`: read a null-terminated
unit sequence starting at `addr`. -/
def readUnits (m : Mem) (addr : Nat) : Except Err (List Nat) :=
  readUnitsGo (m.drop addr)

/-! ### Unicode encoding/decoding

`std::str::from_utf8`, `str::encode_utf16`, `String::from_utf16` and the
UTF-8 re-encoding hidden in `String → OsString`, modeled over lists of
code units with code points as `Nat`. -/

/-- A Unicode scalar value: below 0x110000 and not a surrogate. -/
def isScalar (c : Nat) : Prop := c < 0x110000 ∧ ¬(0xD800 ≤ c ∧ c < 0xE000)

instance (c : Nat) : Decidable (isScalar c) := by unfold isScalar; infer_instance

/-- A UTF-8 continuation byte. -/
def isCont (b : Nat) : Prop := 0x80 ≤ b ∧ b < 0xC0

instance (b : Nat) : Decidable (isCont b) := by unfold isCont; infer_instance

/-- Code point of a two-byte UTF-8 sequence. -/
def cp2 (b b1 : Nat) : Nat := (b - 0xC0) * 0x40 + (b1 - 0x80)

/-- Code point of a three-byte UTF-8 sequence. -/
def cp3 (b b1 b2 : Nat) : Nat := (b - 0xE0) * 0x1000 + (b1 - 0x80) * 0x40 + (b2 - 0x80)

/-- Code point of a four-byte UTF-8 sequence. -/
def cp4 (b b1 b2 b3 : Nat) : Nat :=
  (b - 0xF0) * 0x40000 + (b1 - 0x80) * 0x1000 + (b2 - 0x80) * 0x40 + (b3 - 0x80)

/-- Validity condition for a two-byte UTF-8 sequence (lead `C2..DF`). -/
def cond2 (b b1 : Nat) : Prop := 0xC2 ≤ b ∧ b < 0xE0 ∧ isCont b1

instance (b b1 : Nat) : Decidable (cond2 b b1) := by unfold cond2; infer_instance

/-- Validity condition for a three-byte UTF-8 sequence (lead `E0..EF`,
rejecting overlong forms and surrogates). -/
def cond3 (b b1 b2 : Nat) : Prop :=
  0xE0 ≤ b ∧ b < 0xF0 ∧ isCont b1 ∧ isCont b2 ∧
    (b = 0xE0 → 0xA0 ≤ b1) ∧ (b = 0xED → b1 < 0xA0)

instance (b b1 b2 : Nat) : Decidable (cond3 b b1 b2) := by unfold cond3; infer_instance

/-- Validity condition for a four-byte UTF-8 sequence (lead `F0..F4`,
rejecting overlong forms and code points above 0x10FFFF). -/
def cond4 (b b1 b2 b3 : Nat) : Prop :=
  0xF0 ≤ b ∧ b < 0xF5 ∧ isCont b1 ∧ isCont b2 ∧ isCont b3 ∧
    (b = 0xF0 → 0x90 ≤ b1) ∧ (b = 0xF4 → b1 < 0x90)

instance (b b1 b2 b3 : Nat) : Decidable (cond4 b b1 b2 b3) := by
  unfold cond4; infer_instance

/-- Strict UTF-8 decoding of a byte list into its code points
(`std::str::from_utf8` semantics), `none` on any invalid sequence. -/
def utf8Decode : List Nat → Option (List Nat)
  | [] => some []
  | b :: l =>
    if b < 0x80 then (utf8Decode l).map (b :: ·)
    else
      match l with
      | [] => none
      | b1 :: l1 =>
        if cond2 b b1 then (utf8Decode l1).map (cp2 b b1 :: ·)
        else
          match l1 with
          | [] => none
          | b2 :: l2 =>
            if cond3 b b1 b2 then (utf8Decode l2).map (cp3 b b1 b2 :: ·)
            else
              match l2 with
              | [] => none
              | b3 :: l3 =>
                if cond4 b b1 b2 b3 then (utf8Decode l3).map (cp4 b b1 b2 b3 :: ·)
                else none

/-- Standard UTF-8 encoding of one Unicode scalar value. -/
def utf8EncodeChar (c : Nat) : List Nat :=
  if c < 0x80 then [c]
  else if c < 0x800 then [0xC0 + c / 0x40, 0x80 + c % 0x40]
  else if c < 0x10000 then
    [0xE0 + c / 0x1000, 0x80 + c / 0x40 % 0x40, 0x80 + c % 0x40]
  else
    [0xF0 + c / 0x40000, 0x80 + c / 0x1000 % 0x40, 0x80 + c / 0x40 % 0x40, 0x80 + c % 0x40]

/-- Strict UTF-16 decoding of a 16-bit-unit list into its code points
(`String::from_utf16` semantics: surrogates must be properly paired),
`none` on any lone or misordered surrogate or unit outside 16 bits. -/
def utf16Decode : List Nat → Option (List Nat)
  | [] => some []
  | u :: l =>
    if u < 0xD800 ∨ (0xE000 ≤ u ∧ u < 0x10000) then (utf16Decode l).map (u :: ·)
    else if 0xD800 ≤ u ∧ u < 0xDC00 then
      match l with
      | [] => none
      | u1 :: l1 =>
        if 0xDC00 ≤ u1 ∧ u1 < 0xE000 then
          (utf16Decode l1).map ((0x10000 + (u - 0xD800) * 0x400 + (u1 - 0xDC00)) :: ·)
        else none
    else none

/-- Standard UTF-16 encoding of one Unicode scalar value
(`str::encode_utf16` semantics). -/
def utf16EncodeChar (c : Nat) : List Nat :=
  if c < 0x10000 then [c]
  else [0xD800 + (c - 0x10000) / 0x400, 0xDC00 + (c - 0x10000) % 0x400]

/-- The spec's notion of "valid UTF-8 text": the byte list is the UTF-8
encoding of some sequence of Unicode scalar values.  Stated independently of
the decoder so that the decoder's failure condition can be compared to it. -/
def ValidUtf8 (l : List Nat) : Prop :=
  ∃ cps : List Nat, (∀ c ∈ cps, isScalar c) ∧ l = cps.flatMap utf8EncodeChar

/-- The spec's notion of "valid UTF-16 (properly paired surrogates)": the unit
list is the UTF-16 encoding of some sequence of Unicode scalar values. -/
def ValidUtf16 (l : List Nat) : Prop :=
  ∃ cps : List Nat, (∀ c ∈ cps, isScalar c) ∧ l = cps.flatMap utf16EncodeChar

/-! ### String codec (byte-oriented / unix host instantiation) -/

/-- `bytes_to_os_str`, `#[cfg(unix)]` branch: arbitrary bytes are a legal
host string, no validity check. -/
def bytes_to_os_str (bytes : List Nat) : Except Err (List Nat) := .ok bytes

/-- `os_str_to_bytes`, `#[cfg(unix)]` branch: the host string's bytes are
emitted unchanged. -/
def os_str_to_bytes (s : List Nat) : Except Err (List Nat) := .ok s

/-- `u16vec_to_osstring`, `#[cfg(not(windows))]` branch: the units must be
valid UTF-16 (else the unsupported-encoding error); the resulting host string
is the UTF-8 re-encoding performed by `String → OsString`. -/
def u16vec_to_osstring (u : List Nat) : Except Err (List Nat) :=
  match utf16Decode u with
  | some cps => .ok (cps.flatMap utf8EncodeChar)
  | none => .error .invalidEncoding

/-- `os_str_to_u16vec`, `#[cfg(not(windows))]` branch: the host string must be
valid UTF-8 (else the unsupported-encoding error), then re-encoded as UTF-16
units via `str::encode_utf16`. -/
def os_str_to_u16vec (s : List Nat) : Except Err (List Nat) :=
  match utf8Decode s with
  | some cps => .ok (cps.flatMap utf16EncodeChar)
  | none => .error .invalidEncoding

/-! ### The six marshaling operations (byte-oriented host) -/

/-- `read_os_str_from_c_str`: read a null-terminated byte sequence and decode
it as a host string. -/
def read_os_str_from_c_str (m : Mem) (addr : Nat) : Except Err (List Nat) :=
  (readUnits m addr).bind bytes_to_os_str

/-- `read_os_str_from_wide_str`: read a 0x0000-terminated u16 sequence and
decode it as a host string. -/
def read_os_str_from_wide_str (m : Mem) (addr : Nat) : Except Err (List Nat) :=
  (readUnits m addr).bind u16vec_to_osstring

/-- `write_os_str_to_c_str`: encode the host string as bytes; if `size` is not
strictly larger than the content length, write nothing and report
`(false, length)`; otherwise write content plus `0` terminator and report
`(true, length)`.  Length never counts the terminator. -/
def write_os_str_to_c_str (s : List Nat) (addr size : Nat) (m : Mem) :
    Except Err (Mem × Bool × Nat) :=
  (os_str_to_bytes s).bind fun bytes =>
    if size ≤ bytes.length then .ok (m, false, bytes.length)
    else (writeUnits m addr (bytes ++ [0])).map fun m2 => (m2, true, bytes.length)

/-- `write_os_str_to_wide_str`: encode the host string as UTF-16 units; if
`size` is not strictly larger than the unit count, write nothing and report
`(false, length)`; otherwise write units plus `0x0000` terminator and report
`(true, length)`. -/
def write_os_str_to_wide_str (s : List Nat) (addr size : Nat) (m : Mem) :
    Except Err (Mem × Bool × Nat) :=
  (os_str_to_u16vec s).bind fun u16vec =>
    if size ≤ u16vec.length then .ok (m, false, u16vec.length)
    else (writeUnits m addr (u16vec ++ [0])).map fun m2 => (m2, true, u16vec.length)

/-! ### Allocation helpers -/

/-- Largest value of the interpreter's length type `u64`. -/
def u64Max : Nat := 2 ^ 64 - 1

/-- The allocation-size computation
`u64::try_from(os_str.len()).unwrap().checked_add(1).unwrap()`: the host byte
length plus one terminator unit, with both the conversion and the addition
checked; `none` models the fatal panic on overflow. -/
def checkedSize (n : Nat) : Option Nat :=
  if n ≤ u64Max then (if n + 1 ≤ u64Max then some (n + 1) else none) else none

/-- `alloc_os_str_as_c_str`: compute `os_str.len() + 1` (fatal on overflow),
allocate a fresh uninitialized region of that many bytes, and write the
string into it, unwrapping the result (fatal on any error) and asserting that
the write committed.  Returns the region's final contents and its size;
`none` models every fatal outcome. -/
def alloc_os_str_as_c_str (s : List Nat) : Option (Mem × Nat) :=
  match checkedSize s.length with
  | none => none
  | some size =>
    match write_os_str_to_c_str s 0 size (List.replicate size none) with
    | .error _ => none
    | .ok (m, committed, _) => if committed then some (m, size) else none

/-- `alloc_os_str_as_wide_str`: compute `os_str.len() + 1` — the host **byte**
length, not the UTF-16 unit count — (fatal on overflow), allocate a fresh
uninitialized region of that many u16 units, and write the string into it,
unwrapping the result (fatal on any error, in particular on invalid UTF-8)
and asserting that the write committed. -/
def alloc_os_str_as_wide_str (s : List Nat) : Option (Mem × Nat) :=
  match checkedSize s.length with
  | none => none
  | some size =>
    match write_os_str_to_wide_str s 0 size (List.replicate size none) with
    | .error _ => none
    | .ok (m, committed, _) => if committed then some (m, size) else none

/-! ### Path separator normalization -/

/-- Direction of path separator conversion. -/
inductive Pathconversion where
  | hostToTarget
  | targetToHost

/-- `convert_path_separator`, `#[cfg(unix)]` branch (byte-oriented host): on a
Windows target replace `/` by `\` (host-to-target) or `\` by `/`
(target-to-host) byte for byte; any other target matches the host convention
and the value is returned unchanged. -/
def convert_path_separator_unixHost (s : List Nat) (target_os : String)
    (d : Pathconversion) : List Nat :=
  if target_os = "windows" then
    let ft : Nat × Nat :=
      match d with
      | .hostToTarget => (0x2F, 0x5C)
      | .targetToHost => (0x5C, 0x2F)
    s.map fun wchar => if wchar = ft.1 then ft.2 else wchar
  else s

/-- `convert_path_separator`, `#[cfg(windows)]` branch (wide-oriented host):
on a Windows target the value is returned unchanged; on any other target
replace `\` by `/` (host-to-target) or `/` by `\` (target-to-host) unit for
unit over the `encode_wide` units. -/
def convert_path_separator_windowsHost (s : List Nat) (target_os : String)
    (d : Pathconversion) : List Nat :=
  if target_os = "windows" then s
  else
    let ft : Nat × Nat :=
      match d with
      | .hostToTarget => (0x5C, 0x2F)
      | .targetToHost => (0x2F, 0x5C)
    s.map fun wchar => if wchar = ft.1 then ft.2 else wchar

/-- The `(from, to)` separator pair chosen by the `#[cfg(unix)]` branch for a
Windows target, by direction. -/
def unixHostFromTo (d : Pathconversion) : Nat × Nat :=
  match d with
  | .hostToTarget => (0x2F, 0x5C)
  | .targetToHost => (0x5C, 0x2F)

/-- The `(from, to)` separator pair chosen by the `#[cfg(windows)]` branch for
a non-Windows target, by direction. -/
def windowsHostFromTo (d : Pathconversion) : Nat × Nat :=
  match d with
  | .hostToTarget => (0x5C, 0x2F)
  | .targetToHost => (0x2F, 0x5C)

/-- `read_path_from_c_str`: read a null-terminated byte string and apply
target-to-host separator conversion. -/
def read_path_from_c_str (m : Mem) (addr : Nat) (target_os : String) :
    Except Err (List Nat) :=
  (read_os_str_from_c_str m addr).map fun s =>
    convert_path_separator_unixHost s target_os .targetToHost

/-- `write_path_to_c_str`: apply host-to-target separator conversion, then
write the result as a null-terminated byte string. -/
def write_path_to_c_str (p : List Nat) (target_os : String) (addr size : Nat)
    (m : Mem) : Except Err (Mem × Bool × Nat) :=
  write_os_str_to_c_str (convert_path_separator_unixHost p target_os .hostToTarget)
    addr size m

end OsStr

namespace OsStr

/-! ### Memory lemmas -/

theorem setUnits_length (m : Mem) (addr : Nat) (us : List Nat)
    (h : addr + us.length ≤ m.length) :
    (setUnits m addr us).length = m.length := by
  simp [setUnits]
  omega

theorem setUnits_getElem? (m : Mem) (addr : Nat) (us : List Nat)
    (h : addr + us.length ≤ m.length) (j : Nat) :
    (setUnits m addr us)[j]? =
      if j < addr then m[j]?
      else if j < addr + us.length then (us[j - addr]?).map some
      else m[j]? := by
  have haddr : addr ≤ m.length := by omega
  have hlt : (List.take addr m).length = addr := by
    rw [List.length_take]
    exact min_eq_left haddr
  unfold setUnits
  rw [List.append_assoc, List.getElem?_append, hlt]
  by_cases h1 : j < addr
  · rw [if_pos h1, List.getElem?_take, if_pos h1, if_pos h1]
  · rw [if_neg h1, List.getElem?_append, List.length_map]
    by_cases h2 : j < addr + us.length
    · rw [if_pos (by omega), List.getElem?_map, if_neg h1, if_pos h2]
    · rw [if_neg (by omega), List.getElem?_drop, if_neg h1, if_neg h2]
      congr 1
      omega

theorem drop_setUnits (m : Mem) (addr : Nat) (us : List Nat)
    (h : addr + us.length ≤ m.length) :
    (setUnits m addr us).drop addr = us.map some ++ m.drop (addr + us.length) := by
  have haddr : addr ≤ m.length := by omega
  unfold setUnits
  rw [List.append_assoc]
  exact List.drop_left' (by rw [List.length_take]; exact min_eq_left haddr)

theorem readUnitsGo_append (us : List Nat) (t : List (Option Nat))
    (h : ∀ u ∈ us, u ≠ 0) :
    readUnitsGo (us.map some ++ some 0 :: t) = .ok us := by
  induction us with
  | nil => simp [readUnitsGo]
  | cons u us ih =>
    have hu : u ≠ 0 := h u (by simp)
    have ih2 := ih fun x hx => h x (by simp [hx])
    simp only [List.map_cons, List.cons_append, readUnitsGo, if_neg hu, List.append_eq, ih2]
    rfl

end OsStr

namespace OsStr

/-! ### UTF-8 / UTF-16 coding lemmas -/

theorem cp2_scalar (b b1 : Nat) (h : cond2 b b1) : isScalar (cp2 b b1) := by
  unfold cond2 isCont at h
  unfold isScalar cp2
  omega

theorem cp3_scalar (b b1 b2 : Nat) (h : cond3 b b1 b2) : isScalar (cp3 b b1 b2) := by
  unfold cond3 isCont at h
  unfold isScalar cp3
  omega

theorem cp4_scalar (b b1 b2 b3 : Nat) (h : cond4 b b1 b2 b3) :
    isScalar (cp4 b b1 b2 b3) := by
  unfold cond4 isCont at h
  unfold isScalar cp4
  omega

theorem utf8EncodeChar_cp2 (b b1 : Nat) (h : cond2 b b1) :
    utf8EncodeChar (cp2 b b1) = [b, b1] := by
  unfold cond2 isCont at h
  unfold utf8EncodeChar cp2
  rw [if_neg (by omega), if_pos (by omega)]
  simp only [List.cons.injEq, and_true]
  omega

theorem utf8EncodeChar_cp3 (b b1 b2 : Nat) (h : cond3 b b1 b2) :
    utf8EncodeChar (cp3 b b1 b2) = [b, b1, b2] := by
  unfold cond3 isCont at h
  unfold utf8EncodeChar cp3
  rw [if_neg (by omega), if_neg (by omega), if_pos (by omega)]
  simp only [List.cons.injEq, and_true]
  omega

theorem utf8EncodeChar_cp4 (b b1 b2 b3 : Nat) (h : cond4 b b1 b2 b3) :
    utf8EncodeChar (cp4 b b1 b2 b3) = [b, b1, b2, b3] := by
  unfold cond4 isCont at h
  unfold utf8EncodeChar cp4
  rw [if_neg (by omega), if_neg (by omega), if_neg (by omega)]
  simp only [List.cons.injEq, and_true]
  omega

end OsStr

namespace OsStr

theorem utf8Decode_sound (l : List Nat) :
    ∀ cps, utf8Decode l = some cps →
      (∀ c ∈ cps, isScalar c) ∧ l = cps.flatMap utf8EncodeChar := by
  induction l using utf8Decode.induct with
  | case1 =>
    intro cps h
    rw [utf8Decode.eq_def] at h
    simp only [Option.some.injEq] at h
    subst h
    exact ⟨by simp, by simp⟩
  | case2 b l hb ih =>
    intro cps h
    rw [utf8Decode.eq_def] at h
    simp only [hb, if_true, Option.map_eq_some'] at h
    obtain ⟨cps1, hdec, rfl⟩ := h
    obtain ⟨hsc, henc⟩ := ih cps1 hdec
    refine ⟨?_, ?_⟩
    · intro c hc
      rcases List.mem_cons.mp hc with rfl | hc
      · exact ⟨by omega, by omega⟩
      · exact hsc c hc
    · rw [List.flatMap_cons, ← henc]
      rw [show utf8EncodeChar b = [b] from by unfold utf8EncodeChar; rw [if_pos hb]]
      rfl
  | case3 b hb =>
    intro cps h
    rw [utf8Decode.eq_def] at h
    simp only [hb, if_false] at h
    exact Option.noConfusion h
  | case4 b hb b1 l1 hc2 ih =>
    intro cps h
    rw [utf8Decode.eq_def] at h
    simp only [hb, hc2, if_true, if_false, Option.map_eq_some'] at h
    obtain ⟨cps1, hdec, rfl⟩ := h
    obtain ⟨hsc, henc⟩ := ih cps1 hdec
    refine ⟨?_, ?_⟩
    · intro c hc
      rcases List.mem_cons.mp hc with rfl | hc
      · exact cp2_scalar b b1 hc2
      · exact hsc c hc
    · rw [List.flatMap_cons, utf8EncodeChar_cp2 b b1 hc2, ← henc]
      rfl
  | case5 b hb b1 hc2 =>
    intro cps h
    rw [utf8Decode.eq_def] at h
    simp only [hb, hc2, if_true, if_false] at h
    exact Option.noConfusion h
  | case6 b hb b1 hc2 b2 l2 hc3 ih =>
    intro cps h
    rw [utf8Decode.eq_def] at h
    simp only [hb, hc2, hc3, if_true, if_false, Option.map_eq_some'] at h
    obtain ⟨cps1, hdec, rfl⟩ := h
    obtain ⟨hsc, henc⟩ := ih cps1 hdec
    refine ⟨?_, ?_⟩
    · intro c hc
      rcases List.mem_cons.mp hc with rfl | hc
      · exact cp3_scalar b b1 b2 hc3
      · exact hsc c hc
    · rw [List.flatMap_cons, utf8EncodeChar_cp3 b b1 b2 hc3, ← henc]
      rfl
  | case7 b hb b1 hc2 b2 hc3 =>
    intro cps h
    rw [utf8Decode.eq_def] at h
    simp only [hb, hc2, hc3, if_true, if_false] at h
    exact Option.noConfusion h
  | case8 b hb b1 hc2 b2 hc3 b3 l3 hc4 ih =>
    intro cps h
    rw [utf8Decode.eq_def] at h
    simp only [hb, hc2, hc3, hc4, if_true, if_false, Option.map_eq_some'] at h
    obtain ⟨cps1, hdec, rfl⟩ := h
    obtain ⟨hsc, henc⟩ := ih cps1 hdec
    refine ⟨?_, ?_⟩
    · intro c hc
      rcases List.mem_cons.mp hc with rfl | hc
      · exact cp4_scalar b b1 b2 b3 hc4
      · exact hsc c hc
    · rw [List.flatMap_cons, utf8EncodeChar_cp4 b b1 b2 b3 hc4, ← henc]
      rfl
  | case9 b hb b1 hc2 b2 hc3 b3 l3 hc4 =>
    intro cps h
    rw [utf8Decode.eq_def] at h
    simp only [hb, hc2, hc3, hc4, if_true, if_false] at h
    exact Option.noConfusion h

end OsStr

namespace OsStr

theorem utf16EncodeChar_pair (u u1 : Nat) (hu : 0xD800 ≤ u ∧ u < 0xDC00)
    (hu1 : 0xDC00 ≤ u1 ∧ u1 < 0xE000) :
    utf16EncodeChar (0x10000 + (u - 0xD800) * 0x400 + (u1 - 0xDC00)) = [u, u1] := by
  unfold utf16EncodeChar
  rw [if_neg (by omega)]
  simp only [List.cons.injEq, and_true]
  omega

theorem utf16_pair_scalar (u u1 : Nat) (hu : 0xD800 ≤ u ∧ u < 0xDC00)
    (hu1 : 0xDC00 ≤ u1 ∧ u1 < 0xE000) :
    isScalar (0x10000 + (u - 0xD800) * 0x400 + (u1 - 0xDC00)) := by
  unfold isScalar
  omega

theorem utf16Decode_sound (l : List Nat) :
    ∀ cps, utf16Decode l = some cps →
      (∀ c ∈ cps, isScalar c) ∧ l = cps.flatMap utf16EncodeChar := by
  induction l using utf16Decode.induct with
  | case1 =>
    intro cps h
    rw [utf16Decode.eq_def] at h
    simp only [Option.some.injEq] at h
    subst h
    exact ⟨by simp, by simp⟩
  | case2 u l hcond ih =>
    intro cps h
    rw [utf16Decode.eq_def] at h
    simp only [hcond, if_true, Option.map_eq_some'] at h
    obtain ⟨cps1, hdec, rfl⟩ := h
    obtain ⟨hsc, henc⟩ := ih cps1 hdec
    refine ⟨?_, ?_⟩
    · intro c hc
      rcases List.mem_cons.mp hc with rfl | hc
      · exact ⟨by omega, by omega⟩
      · exact hsc c hc
    · rw [List.flatMap_cons, ← henc]
      rw [show utf16EncodeChar u = [u] from by unfold utf16EncodeChar; rw [if_pos (by omega)]]
      rfl
  | case3 u h1 h2 =>
    intro cps h
    rw [utf16Decode.eq_def] at h
    simp only [h1, h2, if_true, if_false] at h
    exact Option.noConfusion h
  | case4 u h1 h2 u1 l1 h3 ih =>
    intro cps h
    rw [utf16Decode.eq_def] at h
    simp only [h1, h2, h3, and_self, if_true, if_false] at h
    rcases hdec : utf16Decode l1 with _ | cps1
    · rw [hdec] at h
      simp at h
    rw [hdec] at h
    simp only [and_self, if_true, Option.map_some', Option.some.injEq] at h
    subst h
    obtain ⟨hsc, henc⟩ := ih cps1 hdec
    refine ⟨?_, ?_⟩
    · intro c hc
      rcases List.mem_cons.mp hc with hceq | hc
      · exact hceq ▸ utf16_pair_scalar u u1 h2 h3
      · exact hsc c hc
    · rw [List.flatMap_cons, utf16EncodeChar_pair u u1 h2 h3, ← henc]
      rfl
  | case5 u h1 h2 u1 l1 h3 =>
    intro cps h
    rw [utf16Decode.eq_def] at h
    simp only [h1, h2, h3, if_true, if_false] at h
    exact Option.noConfusion h
  | case6 u l h1 h2 =>
    intro cps h
    rw [utf16Decode.eq_def] at h
    simp only [h1, h2, if_false] at h
    exact Option.noConfusion h

end OsStr

namespace OsStr

theorem utf8Decode_encodeChar_append (c : Nat) (r : List Nat) (hc : isScalar c) :
    utf8Decode (utf8EncodeChar c ++ r) = (utf8Decode r).map (c :: ·) := by
  obtain ⟨hlt, hsur⟩ := hc
  by_cases h1 : c < 0x80
  · rw [show utf8EncodeChar c = [c] from by unfold utf8EncodeChar; rw [if_pos h1]]
    rw [List.singleton_append, utf8Decode.eq_def]
    simp only [h1, if_true]
  · by_cases h2 : c < 0x800
    · rw [show utf8EncodeChar c = [0xC0 + c / 0x40, 0x80 + c % 0x40] from by
        unfold utf8EncodeChar; rw [if_neg h1, if_pos h2]]
      have hcond : cond2 (0xC0 + c / 0x40) (0x80 + c % 0x40) := by
        unfold cond2 isCont; omega
      rw [List.cons_append, List.cons_append, List.nil_append, utf8Decode.eq_def]
      simp only [show ¬(0xC0 + c / 0x40 < 0x80) from by omega, hcond, if_true, if_false]
      rw [show cp2 (0xC0 + c / 0x40) (0x80 + c % 0x40) = c from by unfold cp2; omega]
    · by_cases h3 : c < 0x10000
      · rw [show utf8EncodeChar c =
            [0xE0 + c / 0x1000, 0x80 + c / 0x40 % 0x40, 0x80 + c % 0x40] from by
          unfold utf8EncodeChar; rw [if_neg h1, if_neg h2, if_pos h3]]
        have hcond : cond3 (0xE0 + c / 0x1000) (0x80 + c / 0x40 % 0x40) (0x80 + c % 0x40) := by
          unfold cond3 isCont; omega
        have hnc2 : ¬ cond2 (0xE0 + c / 0x1000) (0x80 + c / 0x40 % 0x40) := by
          unfold cond2 isCont; omega
        rw [List.cons_append, List.cons_append, List.cons_append, List.nil_append,
          utf8Decode.eq_def]
        simp only [show ¬(0xE0 + c / 0x1000 < 0x80) from by omega, hnc2, hcond,
          if_true, if_false]
        rw [show cp3 (0xE0 + c / 0x1000) (0x80 + c / 0x40 % 0x40) (0x80 + c % 0x40) = c from by
          unfold cp3; omega]
      · rw [show utf8EncodeChar c =
            [0xF0 + c / 0x40000, 0x80 + c / 0x1000 % 0x40, 0x80 + c / 0x40 % 0x40,
              0x80 + c % 0x40] from by
          unfold utf8EncodeChar; rw [if_neg h1, if_neg h2, if_neg h3]]
        have hcond : cond4 (0xF0 + c / 0x40000) (0x80 + c / 0x1000 % 0x40)
            (0x80 + c / 0x40 % 0x40) (0x80 + c % 0x40) := by
          unfold cond4 isCont; omega
        have hnc2 : ¬ cond2 (0xF0 + c / 0x40000) (0x80 + c / 0x1000 % 0x40) := by
          unfold cond2 isCont; omega
        have hnc3 : ¬ cond3 (0xF0 + c / 0x40000) (0x80 + c / 0x1000 % 0x40)
            (0x80 + c / 0x40 % 0x40) := by
          unfold cond3 isCont; omega
        rw [List.cons_append, List.cons_append, List.cons_append, List.cons_append,
          List.nil_append, utf8Decode.eq_def]
        simp only [show ¬(0xF0 + c / 0x40000 < 0x80) from by omega, hnc2, hnc3, hcond,
          if_true, if_false]
        rw [show cp4 (0xF0 + c / 0x40000) (0x80 + c / 0x1000 % 0x40) (0x80 + c / 0x40 % 0x40)
            (0x80 + c % 0x40) = c from by unfold cp4; omega]

theorem utf16Decode_encodeChar_append (c : Nat) (r : List Nat) (hc : isScalar c) :
    utf16Decode (utf16EncodeChar c ++ r) = (utf16Decode r).map (c :: ·) := by
  obtain ⟨hlt, hsur⟩ := hc
  by_cases h1 : c < 0x10000
  · rw [show utf16EncodeChar c = [c] from by unfold utf16EncodeChar; rw [if_pos h1]]
    rw [List.singleton_append, utf16Decode.eq_def]
    simp only [show c < 0xD800 ∨ (0xE000 ≤ c ∧ c < 0x10000) from by omega, if_true]
  · rw [show utf16EncodeChar c =
        [0xD800 + (c - 0x10000) / 0x400, 0xDC00 + (c - 0x10000) % 0x400] from by
      unfold utf16EncodeChar; rw [if_neg h1]]
    have hhi : 0xD800 ≤ 0xD800 + (c - 0x10000) / 0x400 ∧
        0xD800 + (c - 0x10000) / 0x400 < 0xDC00 := by omega
    have hlo : 0xDC00 ≤ 0xDC00 + (c - 0x10000) % 0x400 ∧
        0xDC00 + (c - 0x10000) % 0x400 < 0xE000 := by omega
    rw [List.cons_append, List.cons_append, List.nil_append, utf16Decode.eq_def]
    simp only [show ¬(0xD800 + (c - 0x10000) / 0x400 < 0xD800 ∨
        (0xE000 ≤ 0xD800 + (c - 0x10000) / 0x400 ∧
          0xD800 + (c - 0x10000) / 0x400 < 0x10000)) from by omega,
      hhi, hlo, and_self, if_true, if_false]
    rw [show 0x10000 + (0xD800 + (c - 0x10000) / 0x400 - 0xD800) * 0x400 +
        (0xDC00 + (c - 0x10000) % 0x400 - 0xDC00) = c from by omega]

end OsStr

namespace OsStr

theorem utf8Decode_flatMap (cps : List Nat) (h : ∀ c ∈ cps, isScalar c) :
    utf8Decode (cps.flatMap utf8EncodeChar) = some cps := by
  induction cps with
  | nil => rfl
  | cons c cps ih =>
    rw [List.flatMap_cons, utf8Decode_encodeChar_append c _ (h c (by simp))]
    rw [ih fun x hx => h x (by simp [hx])]
    rfl

theorem utf16Decode_flatMap (cps : List Nat) (h : ∀ c ∈ cps, isScalar c) :
    utf16Decode (cps.flatMap utf16EncodeChar) = some cps := by
  induction cps with
  | nil => rfl
  | cons c cps ih =>
    rw [List.flatMap_cons, utf16Decode_encodeChar_append c _ (h c (by simp))]
    rw [ih fun x hx => h x (by simp [hx])]
    rfl

theorem utf8Decode_isSome_iff (l : List Nat) : (utf8Decode l).isSome ↔ ValidUtf8 l := by
  constructor
  · intro h
    obtain ⟨cps, hd⟩ := Option.isSome_iff_exists.mp h
    exact ⟨cps, (utf8Decode_sound l cps hd).1, (utf8Decode_sound l cps hd).2⟩
  · rintro ⟨cps, hsc, rfl⟩
    rw [utf8Decode_flatMap cps hsc]
    rfl

theorem utf16Decode_isSome_iff (l : List Nat) : (utf16Decode l).isSome ↔ ValidUtf16 l := by
  constructor
  · intro h
    obtain ⟨cps, hd⟩ := Option.isSome_iff_exists.mp h
    exact ⟨cps, (utf16Decode_sound l cps hd).1, (utf16Decode_sound l cps hd).2⟩
  · rintro ⟨cps, hsc, rfl⟩
    rw [utf16Decode_flatMap cps hsc]
    rfl

theorem utf16EncodeChar_length_le (c : Nat) (hc : isScalar c) :
    (utf16EncodeChar c).length ≤ (utf8EncodeChar c).length := by
  obtain ⟨hlt, hsur⟩ := hc
  unfold utf16EncodeChar utf8EncodeChar
  split_ifs <;> (simp; try omega)

theorem flatMap_utf16_length_le (cps : List Nat) (h : ∀ c ∈ cps, isScalar c) :
    (cps.flatMap utf16EncodeChar).length ≤ (cps.flatMap utf8EncodeChar).length := by
  induction cps with
  | nil => simp
  | cons c cps ih =>
    rw [List.flatMap_cons, List.flatMap_cons, List.length_append, List.length_append]
    have h1 := utf16EncodeChar_length_le c (h c (by simp))
    have h2 := ih fun x hx => h x (by simp [hx])
    omega

end OsStr

namespace OsStr

/-! ### Write-operation helper lemmas -/

theorem write_c_eq (s : List Nat) (addr size : Nat) (m : Mem) :
    write_os_str_to_c_str s addr size m =
      if size ≤ s.length then .ok (m, false, s.length)
      else (writeUnits m addr (s ++ [0])).map fun m2 => (m2, true, s.length) := rfl

theorem write_w_eq (t u : List Nat) (hu : os_str_to_u16vec t = .ok u)
    (addr size : Nat) (m : Mem) :
    write_os_str_to_wide_str t addr size m =
      if size ≤ u.length then .ok (m, false, u.length)
      else (writeUnits m addr (u ++ [0])).map fun m2 => (m2, true, u.length) := by
  unfold write_os_str_to_wide_str
  rw [hu]
  rfl

theorem setUnits_term_spec (content : List Nat) (addr : Nat) (m : Mem)
    (hroom : addr + content.length + 1 ≤ m.length) :
    (setUnits m addr (content ++ [0])).length = m.length ∧
    (∀ i, i < content.length →
      (setUnits m addr (content ++ [0]))[addr + i]? = (content[i]?).map some) ∧
    (setUnits m addr (content ++ [0]))[addr + content.length]? = some (some 0) ∧
    (∀ j, j < addr ∨ addr + content.length + 1 ≤ j →
      (setUnits m addr (content ++ [0]))[j]? = m[j]?) := by
  have hroom2 : addr + (content ++ [0]).length ≤ m.length := by
    simp only [List.length_append, List.length_singleton]
    omega
  refine ⟨setUnits_length m addr _ hroom2, ?_, ?_, ?_⟩
  · intro i hi
    rw [setUnits_getElem? m addr _ hroom2, if_neg (by omega),
      if_pos (by simp only [List.length_append, List.length_singleton]; omega)]
    rw [show addr + i - addr = i from by omega]
    rw [List.getElem?_append, if_pos hi]
  · rw [setUnits_getElem? m addr _ hroom2, if_neg (by omega),
      if_pos (by simp only [List.length_append, List.length_singleton]; omega)]
    rw [show addr + content.length - addr = content.length from by omega]
    rw [List.getElem?_append, if_neg (by omega)]
    simp
  · intro j hj
    rw [setUnits_getElem? m addr _ hroom2]
    rcases hj with hj | hj
    · rw [if_pos hj]
    · rw [if_neg (by omega),
        if_neg (by simp only [List.length_append, List.length_singleton]; omega)]

/-- C1: Probe-then-commit write contract: for every host string whose target
encoding has content length `L` units (byte variant: the bytes themselves;
wide variant: the UTF-16 units `u`), and every declared capacity `size`, the
write performs no write at all and returns `(false, L)` (TooSmall) when
`size ≤ L`, and otherwise (given the destination range is addressable) writes
exactly `L` content units followed by exactly one terminator unit — all other
memory unchanged — and returns `(true, L)` (Written); the reported length
never counts the terminator. -/
theorem C1_probe_then_commit (s t u : List Nat) (addr size : Nat) (m : Mem)
    (hu : os_str_to_u16vec t = .ok u) :
    (size ≤ s.length → write_os_str_to_c_str s addr size m = .ok (m, false, s.length)) ∧
    (s.length < size → addr + s.length + 1 ≤ m.length →
      write_os_str_to_c_str s addr size m =
        .ok (setUnits m addr (s ++ [0]), true, s.length) ∧
      (setUnits m addr (s ++ [0])).length = m.length ∧
      (∀ i, i < s.length →
        (setUnits m addr (s ++ [0]))[addr + i]? = (s[i]?).map some) ∧
      (setUnits m addr (s ++ [0]))[addr + s.length]? = some (some 0) ∧
      (∀ j, j < addr ∨ addr + s.length + 1 ≤ j →
        (setUnits m addr (s ++ [0]))[j]? = m[j]?)) ∧
    (size ≤ u.length → write_os_str_to_wide_str t addr size m = .ok (m, false, u.length)) ∧
    (u.length < size → addr + u.length + 1 ≤ m.length →
      write_os_str_to_wide_str t addr size m =
        .ok (setUnits m addr (u ++ [0]), true, u.length) ∧
      (setUnits m addr (u ++ [0])).length = m.length ∧
      (∀ i, i < u.length →
        (setUnits m addr (u ++ [0]))[addr + i]? = (u[i]?).map some) ∧
      (setUnits m addr (u ++ [0]))[addr + u.length]? = some (some 0) ∧
      (∀ j, j < addr ∨ addr + u.length + 1 ≤ j →
        (setUnits m addr (u ++ [0]))[j]? = m[j]?)) := by
  refine ⟨?_, ?_, ?_, ?_⟩
  · intro hsz
    rw [write_c_eq, if_pos hsz]
  · intro hsz hroom
    obtain ⟨hl, hi, ht, ho⟩ := setUnits_term_spec s addr m hroom
    refine ⟨?_, hl, hi, ht, ho⟩
    rw [write_c_eq, if_neg (by omega)]
    unfold writeUnits
    rw [if_pos (by simp only [List.length_append, List.length_singleton]; omega)]
    rfl
  · intro hsz
    rw [write_w_eq t u hu, if_pos hsz]
  · intro hsz hroom
    obtain ⟨hl, hi, ht, ho⟩ := setUnits_term_spec u addr m hroom
    refine ⟨?_, hl, hi, ht, ho⟩
    rw [write_w_eq t u hu, if_neg (by omega)]
    unfold writeUnits
    rw [if_pos (by simp only [List.length_append, List.length_singleton]; omega)]
    rfl

/-- Witness for C1 at concrete inputs: probing with capacity 0 returns
TooSmall with the encoded length for both variants. -/
theorem C1_probe_then_commit_witness :
    write_os_str_to_c_str [1] 0 0 [] = .ok ([], false, 1) ∧
    write_os_str_to_wide_str [0x61] 0 0 [] = .ok ([], false, 1) := by
  have h := C1_probe_then_commit [1] [0x61] [0x61] 0 0 [] rfl
  exact ⟨h.1 (by decide), h.2.2.1 (by decide)⟩

/-- C9: Zero-capacity probe: for every host string whose encoding succeeds,
a write with capacity 0 returns TooSmall with the encoded length, leaves
memory untouched and raises no error; the empty string has encoded length 0,
so capacity 0 yields TooSmall(0), while capacity 1 suffices to write just the
terminator (Written(0)). -/
theorem C9_zero_capacity_probe (s t u : List Nat) (addr : Nat) (m : Mem)
    (hu : os_str_to_u16vec t = .ok u) (hroom : addr < m.length) :
    write_os_str_to_c_str s addr 0 m = .ok (m, false, s.length) ∧
    write_os_str_to_wide_str t addr 0 m = .ok (m, false, u.length) ∧
    os_str_to_u16vec [] = .ok [] ∧
    write_os_str_to_c_str [] addr 0 m = .ok (m, false, 0) ∧
    write_os_str_to_wide_str [] addr 0 m = .ok (m, false, 0) ∧
    write_os_str_to_c_str [] addr 1 m = .ok (setUnits m addr [0], true, 0) ∧
    write_os_str_to_wide_str [] addr 1 m = .ok (setUnits m addr [0], true, 0) := by
  refine ⟨?_, ?_, rfl, ?_, ?_, ?_, ?_⟩
  · rw [write_c_eq, if_pos (by omega)]
  · rw [write_w_eq t u hu, if_pos (by omega)]
  · rw [write_c_eq, if_pos (by omega)]
    rfl
  · rw [write_w_eq [] [] rfl, if_pos (by omega)]
    rfl
  · rw [write_c_eq, if_neg (by simp)]
    unfold writeUnits
    rw [if_pos (by simp only [List.nil_append, List.length_singleton]; omega)]
    rfl
  · rw [write_w_eq [] [] rfl, if_neg (by simp)]
    unfold writeUnits
    rw [if_pos (by simp only [List.nil_append, List.length_singleton]; omega)]
    rfl

/-- Witness for C9 at concrete inputs. -/
theorem C9_zero_capacity_probe_witness :
    write_os_str_to_c_str [7] 0 0 [none] = .ok ([none], false, 1) ∧
    write_os_str_to_c_str [] 0 1 [none] = .ok (setUnits [none] 0 [0], true, 0) := by
  have h := C9_zero_capacity_probe [7] [0x62] [0x62] 0 [none] rfl (by decide)
  exact ⟨h.1, h.2.2.2.2.2.1⟩

end OsStr

namespace OsStr

/-- C2: Cross-encoding conversions fail with InvalidEncoding exactly on
invalid Unicode: on a byte-oriented host, decoding a wide (16-bit-unit)
buffer fails with InvalidEncoding iff the units are not valid UTF-16, and
encoding a host string into a wide buffer fails with InvalidEncoding iff the
host string is not valid UTF-8 text — otherwise it is re-encoded as UTF-16
units. -/
theorem C2_invalid_encoding_iff (u s : List Nat) :
    (u16vec_to_osstring u = .error .invalidEncoding ↔ ¬ ValidUtf16 u) ∧
    (os_str_to_u16vec s = .error .invalidEncoding ↔ ¬ ValidUtf8 s) ∧
    (∀ cps, utf8Decode s = some cps →
      os_str_to_u16vec s = .ok (cps.flatMap utf16EncodeChar)) := by
  refine ⟨?_, ?_, ?_⟩
  · unfold u16vec_to_osstring
    rcases h : utf16Decode u with _ | cps
    · have hv : ¬ ValidUtf16 u := by
        intro hval
        have hs := (utf16Decode_isSome_iff u).mpr hval
        rw [h] at hs
        simp at hs
      simp [hv]
    · have hv : ValidUtf16 u := (utf16Decode_isSome_iff u).mp (by rw [h]; rfl)
      simp [hv]
  · unfold os_str_to_u16vec
    rcases h : utf8Decode s with _ | cps
    · have hv : ¬ ValidUtf8 s := by
        intro hval
        have hs := (utf8Decode_isSome_iff s).mpr hval
        rw [h] at hs
        simp at hs
      simp [hv]
    · have hv : ValidUtf8 s := (utf8Decode_isSome_iff s).mp (by rw [h]; rfl)
      simp [hv]
  · intro cps h
    unfold os_str_to_u16vec
    rw [h]

/-- Witness for C2's success clause at a concrete input. -/
theorem C2_invalid_encoding_iff_witness :
    os_str_to_u16vec [0xC3, 0xA9] = .ok ([0xE9].flatMap utf16EncodeChar) := by
  exact (C2_invalid_encoding_iff [] [0xC3, 0xA9]).2.2 [0xE9] rfl

/-- C3: Round-trip on native encoding: for every host string `s` (which, per
the spec's HostString invariant, never contains a terminator unit), writing
`s` to a byte buffer with capacity `len(s)+1` on a byte-oriented host
succeeds, and reading that buffer back with the terminator-scanning read
yields exactly `s`, with no validity check imposed on the bytes. -/
theorem C3_native_round_trip (s : List Nat) (addr : Nat) (m : Mem)
    (hroom : addr + s.length + 1 ≤ m.length) (hnull : ∀ b ∈ s, b ≠ 0) :
    write_os_str_to_c_str s addr (s.length + 1) m =
      .ok (setUnits m addr (s ++ [0]), true, s.length) ∧
    read_os_str_from_c_str (setUnits m addr (s ++ [0])) addr = .ok s := by
  constructor
  · rw [write_c_eq, if_neg (by omega)]
    unfold writeUnits
    rw [if_pos (by simp only [List.length_append, List.length_singleton]; omega)]
    rfl
  · unfold read_os_str_from_c_str readUnits
    rw [drop_setUnits m addr _
      (by simp only [List.length_append, List.length_singleton]; omega)]
    simp only [List.map_append, List.map_cons, List.map_nil, List.append_assoc,
      List.singleton_append]
    rw [readUnitsGo_append s _ hnull]
    rfl

/-- Witness for C3 at a concrete input: a one-byte string round-trips
through a two-byte buffer. -/
theorem C3_native_round_trip_witness :
    write_os_str_to_c_str [0x68] 0 2 [none, none] =
      .ok (setUnits [none, none] 0 [0x68, 0], true, 1) ∧
    read_os_str_from_c_str (setUnits [none, none] 0 [0x68, 0]) 0 = .ok [0x68] :=
  C3_native_round_trip [0x68] 0 [none, none] (by decide) (by decide)

end OsStr

namespace OsStr

theorem convert_unixHost_windows (s : List Nat) (d : Pathconversion) :
    convert_path_separator_unixHost s "windows" d =
      s.map fun b => if b = (unixHostFromTo d).1 then (unixHostFromTo d).2 else b := by
  unfold convert_path_separator_unixHost unixHostFromTo
  cases d <;> rfl

theorem convert_unixHost_other (s : List Nat) (tos : String) (h : tos ≠ "windows")
    (d : Pathconversion) : convert_path_separator_unixHost s tos d = s := by
  unfold convert_path_separator_unixHost
  rw [if_neg h]

theorem convert_windowsHost_other (s : List Nat) (tos : String) (h : tos ≠ "windows")
    (d : Pathconversion) :
    convert_path_separator_windowsHost s tos d =
      s.map fun b => if b = (windowsHostFromTo d).1 then (windowsHostFromTo d).2 else b := by
  unfold convert_path_separator_windowsHost windowsHostFromTo
  rw [if_neg h]

/-- C4: Path separator normalization: if the configured target OS's separator
convention matches the host's (non-Windows target on the byte host, Windows
target on the wide host), the input is returned unchanged; if they differ,
every occurrence of the source separator is replaced by the destination
separator as a 1:1 unit substitution that never changes the buffer length. -/
theorem C4_separator_normalization (s : List Nat) (tos : String) (d : Pathconversion) :
    (tos ≠ "windows" → convert_path_separator_unixHost s tos d = s) ∧
    (tos = "windows" →
      (convert_path_separator_unixHost s tos d).length = s.length ∧
      ∀ i : Nat, (convert_path_separator_unixHost s tos d)[i]? =
        (s[i]?).map fun b =>
          if b = (unixHostFromTo d).1 then (unixHostFromTo d).2 else b) ∧
    (tos = "windows" → convert_path_separator_windowsHost s tos d = s) ∧
    (tos ≠ "windows" →
      (convert_path_separator_windowsHost s tos d).length = s.length ∧
      ∀ i : Nat, (convert_path_separator_windowsHost s tos d)[i]? =
        (s[i]?).map fun b =>
          if b = (windowsHostFromTo d).1 then (windowsHostFromTo d).2 else b) := by
  refine ⟨?_, ?_, ?_, ?_⟩
  · intro h
    exact convert_unixHost_other s tos h d
  · intro h
    subst h
    refine ⟨?_, ?_⟩
    · rw [convert_unixHost_windows, List.length_map]
    · intro i
      rw [convert_unixHost_windows]
      simp only [List.getElem?_map]
  · intro h
    subst h
    unfold convert_path_separator_windowsHost
    rw [if_pos rfl]
  · intro h
    refine ⟨?_, ?_⟩
    · rw [convert_windowsHost_other s tos h, List.length_map]
    · intro i
      rw [convert_windowsHost_other s tos h]
      simp only [List.getElem?_map]

/-- Witness for C4 at concrete inputs. -/
theorem C4_separator_normalization_witness :
    convert_path_separator_unixHost [0x2F, 0x61] "linux" .hostToTarget = [0x2F, 0x61] ∧
    (convert_path_separator_unixHost [0x2F, 0x61] "windows" .hostToTarget).length = 2 ∧
    (convert_path_separator_unixHost [0x2F, 0x61] "windows" .hostToTarget)[0]? =
      some 0x5C := by
  have h1 := (C4_separator_normalization [0x2F, 0x61] "linux"
    Pathconversion.hostToTarget).1 (by decide)
  have h2 := (C4_separator_normalization [0x2F, 0x61] "windows"
    Pathconversion.hostToTarget).2.1 rfl
  exact ⟨h1, h2.1, (h2.2 0).trans rfl⟩

/-- C5: Separator normalization round-trip: for every path containing no
literal occurrence of the opposite (destination-convention) separator,
applying HostToTarget and then TargetToHost under the same target OS returns
the original path, on both host branches. -/
theorem C5_separator_round_trip (s : List Nat) (tos : String)
    (hbyte : tos = "windows" → ¬ 0x5C ∈ s)
    (hwide : tos ≠ "windows" → ¬ 0x2F ∈ s) :
    convert_path_separator_unixHost
        (convert_path_separator_unixHost s tos .hostToTarget) tos .targetToHost = s ∧
    convert_path_separator_windowsHost
        (convert_path_separator_windowsHost s tos .hostToTarget) tos .targetToHost = s := by
  by_cases htos : tos = "windows"
  · subst htos
    constructor
    · rw [convert_unixHost_windows, convert_unixHost_windows, List.map_map]
      have hs := hbyte rfl
      have hpt : ∀ a ∈ s,
          ((fun b => if b = (unixHostFromTo .targetToHost).1
              then (unixHostFromTo .targetToHost).2 else b) ∘
            fun b => if b = (unixHostFromTo .hostToTarget).1
              then (unixHostFromTo .hostToTarget).2 else b) a = id a := by
        intro a ha
        simp only [Function.comp_apply, id_eq, unixHostFromTo]
        by_cases hb : a = 0x2F
        · subst hb
          rfl
        · have hne2 : a ≠ 0x5C := fun hceq => hs (hceq ▸ ha)
          rw [if_neg hb, if_neg hne2]
      rw [List.map_congr_left hpt, List.map_id]
    · unfold convert_path_separator_windowsHost
      rw [if_pos rfl, if_pos rfl]
  · constructor
    · rw [convert_unixHost_other _ tos htos, convert_unixHost_other _ tos htos]
    · rw [convert_windowsHost_other _ tos htos, convert_windowsHost_other _ tos htos,
        List.map_map]
      have hs := hwide htos
      have hpt : ∀ a ∈ s,
          ((fun b => if b = (windowsHostFromTo .targetToHost).1
              then (windowsHostFromTo .targetToHost).2 else b) ∘
            fun b => if b = (windowsHostFromTo .hostToTarget).1
              then (windowsHostFromTo .hostToTarget).2 else b) a = id a := by
        intro a ha
        simp only [Function.comp_apply, id_eq, windowsHostFromTo]
        by_cases hb : a = 0x5C
        · subst hb
          rfl
        · have hne2 : a ≠ 0x2F := fun hceq => hs (hceq ▸ ha)
          rw [if_neg hb, if_neg hne2]
      rw [List.map_congr_left hpt, List.map_id]

/-- Witness for C5 at a concrete input. -/
theorem C5_separator_round_trip_witness :
    convert_path_separator_unixHost
        (convert_path_separator_unixHost [0x61, 0x2F, 0x62] "windows" .hostToTarget)
        "windows" .targetToHost = [0x61, 0x2F, 0x62] :=
  (C5_separator_round_trip [0x61, 0x2F, 0x62] "windows" (fun _ => by decide)
    (fun h => absurd rfl h)).1

/-- C10: Normalization never corrupts multi-byte characters: on the byte
host, conversion compares each byte against a single ASCII separator byte;
any byte that is ≥ 0x80 (as every byte of a multi-byte UTF-8 character is)
or differs from both separator bytes passes through unchanged. -/
theorem C10_multibyte_bytes_unchanged (s : List Nat) (tos : String)
    (d : Pathconversion) (i b : Nat) (hb : s[i]? = some b)
    (hne : 0x80 ≤ b ∨ (b ≠ 0x2F ∧ b ≠ 0x5C)) :
    (convert_path_separator_unixHost s tos d)[i]? = some b := by
  have hb2F : b ≠ 0x2F := by
    rcases hne with h | h
    · omega
    · exact h.1
  have hb5C : b ≠ 0x5C := by
    rcases hne with h | h
    · omega
    · exact h.2
  by_cases htos : tos = "windows"
  · subst htos
    rw [convert_unixHost_windows, List.getElem?_map, hb]
    cases d
    · simp only [unixHostFromTo, Option.map_some']
      rw [if_neg hb2F]
    · simp only [unixHostFromTo, Option.map_some']
      rw [if_neg hb5C]
  · rw [convert_unixHost_other s tos htos]
    exact hb

/-- Witness for C10 at a concrete input: the second byte of a two-byte UTF-8
character survives host-to-target conversion. -/
theorem C10_multibyte_bytes_unchanged_witness :
    (convert_path_separator_unixHost [0xC3, 0xA9, 0x2F] "windows" .hostToTarget)[1]? =
      some 0xA9 :=
  C10_multibyte_bytes_unchanged [0xC3, 0xA9, 0x2F] "windows" .hostToTarget 1 0xA9 rfl
    (Or.inl (by decide))

end OsStr

namespace OsStr

/-! ### Allocation helper lemmas -/

theorem u16vec_length_le (s u : List Nat) (hu : os_str_to_u16vec s = .ok u) :
    u.length ≤ s.length := by
  unfold os_str_to_u16vec at hu
  rcases h : utf8Decode s with _ | cps
  · rw [h] at hu
    simp at hu
  · rw [h] at hu
    simp only [Except.ok.injEq] at hu
    subst hu
    obtain ⟨hsc, henc⟩ := utf8Decode_sound s cps h
    rw [henc]
    exact flatMap_utf16_length_le cps hsc

theorem checkedSize_eq (n : Nat) (h : n + 1 ≤ u64Max) : checkedSize n = some (n + 1) := by
  unfold checkedSize
  rw [if_pos (by omega), if_pos h]

theorem checkedSize_none (n : Nat) (h : u64Max < n + 1) : checkedSize n = none := by
  unfold checkedSize
  by_cases h1 : n ≤ u64Max
  · rw [if_pos h1, if_neg (by omega)]
  · rw [if_neg h1]

theorem alloc_c_eq (s : List Nat) (hsz : s.length + 1 ≤ u64Max) :
    alloc_os_str_as_c_str s =
      some (setUnits (List.replicate (s.length + 1) none) 0 (s ++ [0]), s.length + 1) := by
  unfold alloc_os_str_as_c_str
  simp only [checkedSize_eq s.length hsz]
  rw [write_c_eq, if_neg (by omega)]
  unfold writeUnits
  rw [if_pos (by
    simp only [List.length_append, List.length_singleton, List.length_replicate]
    omega)]
  rfl

theorem alloc_w_eq (s u : List Nat) (hu : os_str_to_u16vec s = .ok u)
    (hsz : s.length + 1 ≤ u64Max) :
    alloc_os_str_as_wide_str s =
      some (setUnits (List.replicate (s.length + 1) none) 0 (u ++ [0]), s.length + 1) := by
  have hul := u16vec_length_le s u hu
  unfold alloc_os_str_as_wide_str
  simp only [checkedSize_eq s.length hsz]
  rw [write_w_eq s u hu, if_neg (by omega)]
  unfold writeUnits
  rw [if_pos (by
    simp only [List.length_append, List.length_singleton, List.length_replicate]
    omega)]
  rfl

theorem alloc_c_none (s : List Nat) (h : u64Max < s.length + 1) :
    alloc_os_str_as_c_str s = none := by
  unfold alloc_os_str_as_c_str
  simp only [checkedSize_none s.length h]

theorem alloc_w_none_overflow (s : List Nat) (h : u64Max < s.length + 1) :
    alloc_os_str_as_wide_str s = none := by
  unfold alloc_os_str_as_wide_str
  simp only [checkedSize_none s.length h]

theorem alloc_w_none_encoding (s : List Nat) (h : utf8Decode s = none) :
    alloc_os_str_as_wide_str s = none := by
  unfold alloc_os_str_as_wide_str
  cases hcs : checkedSize s.length with
  | none => simp only [hcs]
  | some size =>
    have hw : write_os_str_to_wide_str s 0 size (List.replicate size none) =
        .error .invalidEncoding := by
      unfold write_os_str_to_wide_str os_str_to_u16vec
      rw [h]
      rfl
    simp only [hcs, hw]

/-- C6 (amended): the byte allocation helper computes the minimum capacity
(byte content length + 1) and its write commits; the wide allocation helper
computes capacity = host **byte** length + 1, which is at least the minimum
(UTF-16 unit count + 1), and its write also commits — neither ever returns
TooSmall. -/
theorem C6_alloc_helper (s u : List Nat) (hu : os_str_to_u16vec s = .ok u)
    (hsz : s.length + 1 ≤ u64Max) :
    checkedSize s.length = some (s.length + 1) ∧
    alloc_os_str_as_c_str s =
      some (setUnits (List.replicate (s.length + 1) none) 0 (s ++ [0]), s.length + 1) ∧
    u.length + 1 ≤ s.length + 1 ∧
    alloc_os_str_as_wide_str s =
      some (setUnits (List.replicate (s.length + 1) none) 0 (u ++ [0]), s.length + 1) := by
  have hul := u16vec_length_le s u hu
  exact ⟨checkedSize_eq s.length hsz, alloc_c_eq s hsz, by omega, alloc_w_eq s u hu hsz⟩

/-- Witness for C6's amended statement at a concrete input. -/
theorem C6_alloc_helper_witness :
    alloc_os_str_as_c_str [0x61] =
      some (setUnits (List.replicate 2 none) 0 [0x61, 0], 2) ∧
    alloc_os_str_as_wide_str [0x61] =
      some (setUnits (List.replicate 2 none) 0 [0x61, 0], 2) := by
  have h := C6_alloc_helper [0x61] [0x61] rfl (by decide)
  exact ⟨h.2.1, h.2.2.2⟩

/-- C6 counterexample: for the host string `é` (two UTF-8 bytes, one UTF-16
unit) the wide allocation helper allocates capacity 3 — the host byte length
plus 1 — not the minimum destination capacity in target-native units
(1 unit + 1 terminator = 2) the claim states. -/
theorem C6_counterexample :
    os_str_to_u16vec [0xC3, 0xA9] = .ok [0xE9] ∧
    (alloc_os_str_as_wide_str [0xC3, 0xA9]).map Prod.snd = some 3 ∧
    [0xE9].length + 1 ≠ 3 := by
  refine ⟨rfl, ?_, by decide⟩
  rfl

/-- C7 (amended): the allocation-size computation fails fatally exactly on
overflow of the length-plus-terminator computation for the byte helper; the
wide helper additionally fails fatally when the host string is not valid
UTF-8 — its unwrap of the failed encoding panics — so overflow is not the
only fatal path. -/
theorem C7_fatal_paths (s : List Nat) :
    (alloc_os_str_as_c_str s = none ↔ u64Max < s.length + 1) ∧
    (alloc_os_str_as_wide_str s = none ↔
      u64Max < s.length + 1 ∨ utf8Decode s = none) := by
  constructor
  · constructor
    · intro h
      by_contra hlt
      push_neg at hlt
      rw [alloc_c_eq s hlt] at h
      exact Option.noConfusion h
    · exact alloc_c_none s
  · constructor
    · intro h
      by_contra hboth
      push_neg at hboth
      obtain ⟨h1, h2⟩ := hboth
      rcases hdec : utf8Decode s with _ | cps
      · exact h2 hdec
      · have hu : os_str_to_u16vec s = .ok (cps.flatMap utf16EncodeChar) := by
          unfold os_str_to_u16vec
          rw [hdec]
        rw [alloc_w_eq s _ hu h1] at h
        exact Option.noConfusion h
    · intro h
      rcases h with h | h
      · exact alloc_w_none_overflow s h
      · exact alloc_w_none_encoding s h

/-- C7 counterexample: `[0xFF]` is not valid UTF-8; the wide allocation
helper terminates fatally (unwrap of the failed encoding) even though the
length computation `1 + 1` does not overflow — so fatal overflow is not the
only fatal path in the core. -/
theorem C7_counterexample :
    alloc_os_str_as_wide_str [0xFF] = none ∧ checkedSize 1 = some 2 :=
  ⟨rfl, rfl⟩

/-- C8 counterexample: with capacity 6 the path write of `a/b/c` under a
Windows target commits and reports Written(5); it does not return
TooSmall(5) as the claim's first clause states. -/
theorem C8_counterexample :
    (write_path_to_c_str [0x61, 0x2F, 0x62, 0x2F, 0x63] "windows" 0 6
      (List.replicate 6 none)).map Prod.snd = .ok (true, 5) := rfl

/-- C8 (amended): writing path `a/b/c` under a Windows target to a byte
buffer with capacity 5 yields TooSmall(5); with capacity 6 it writes the
bytes `a\b\c` followed by a 0x00 terminator and reports Written(5); reading
that buffer back via the path-reading operation yields `a/b/c`. -/
theorem C8_scenario :
    write_path_to_c_str [0x61, 0x2F, 0x62, 0x2F, 0x63] "windows" 0 5
      (List.replicate 6 none) = .ok (List.replicate 6 none, false, 5) ∧
    write_path_to_c_str [0x61, 0x2F, 0x62, 0x2F, 0x63] "windows" 0 6
      (List.replicate 6 none) =
      .ok ([some 0x61, some 0x5C, some 0x62, some 0x5C, some 0x63, some 0], true, 5) ∧
    read_path_from_c_str [some 0x61, some 0x5C, some 0x62, some 0x5C, some 0x63, some 0]
      0 "windows" = .ok [0x61, 0x2F, 0x62, 0x2F, 0x63] :=
  ⟨rfl, rfl, rfl⟩

end OsStr
